import Mathlib

/-
Verification development for the green-thread actor runtime in
src/actor_model_imprementation_rust/src/green.rs.

The runtime is single-threaded and cooperative: every mutation of the
process-wide scheduler state happens between two explicit switch points, so
each public operation is embedded as a pure function on an explicit record of
the global state (`RtState`).  The two-phase `set_context` / `switch_context`
primitive is external assembly; what the Rust code decides around it — which
state mutation happens before the save, and which context is resumed on the
SAVED branch — is captured in the outcome types below.  Memory-service calls
(`mprotect`, `dealloc`) are modelled as an emitted event list so that their
order is provable.  Machine integers (`u64`) become `Nat`: no arithmetic is
performed on ids or payloads, so overflow is irrelevant.
-/

set_option autoImplicit false

namespace Green

/-- `PAGE_SIZE` from green.rs: 4 KiB. -/
def PAGE_SIZE : Nat := 4 * 1024

/-- Opaque address of the `entry_point` trampoline; `Registers::new` presets
`x30` to it.  The concrete value is irrelevant, only that it is what `x30` is
initialised with. -/
def entry_point_addr : Nat := 1

/-- The `Registers` struct of green.rs: AArch64 callee-saved registers, the
link register `x30` and the stack pointer `sp`.  The switch primitive that
reads and writes these is external assembly; the runtime only constructs them
via `Registers.new`. -/
structure Registers where
  d8 : Nat
  d9 : Nat
  d10 : Nat
  d11 : Nat
  d12 : Nat
  d13 : Nat
  d14 : Nat
  d15 : Nat
  x19 : Nat
  x20 : Nat
  x21 : Nat
  x22 : Nat
  x23 : Nat
  x24 : Nat
  x25 : Nat
  x26 : Nat
  x27 : Nat
  x28 : Nat
  x30 : Nat
  sp : Nat
  deriving DecidableEq, Repr

/-- `Registers::new(sp)`: all callee-saved registers zero, `x30` preset to the
`entry_point` trampoline, stack pointer `sp`. -/
def Registers.new (sp : Nat) : Registers :=
  { d8 := 0, d9 := 0, d10 := 0, d11 := 0, d12 := 0, d13 := 0, d14 := 0,
    d15 := 0, x19 := 0, x20 := 0, x21 := 0, x22 := 0, x23 := 0, x24 := 0,
    x25 := 0, x26 := 0, x27 := 0, x28 := 0, x30 := entry_point_addr, sp := sp }

/-- The `Context` struct of green.rs: one actor's saved registers, its stack
region (base address and layout, kept for `dealloc`), and its id.  The `entry`
function pointer is host code and is opaque to every claim, so it is not
carried. -/
structure Context where
  regs : Registers
  stack : Nat
  stack_layout : Nat
  thread_id : Nat
  deriving DecidableEq, Repr

/-- `Context::new(func, stack_size, thread_id)`: the allocator returns some
page-aligned base address `stackBase` (external); the guard page is installed
over its first `PAGE_SIZE` bytes (an external `mprotect`, modelled at release
time in `rm_unused_stack`); registers are initialised with
`sp = stackBase + stack_size`. -/
def Context.new (stackBase stack_size thread_id : Nat) : Context :=
  { regs := Registers.new (stackBase + stack_size),
    stack := stackBase,
    stack_layout := stack_size,
    thread_id := thread_id }

/-- The `MappedList<T>` struct of green.rs: `HashMap<u64, LinkedList<T>>`,
embedded as an association list (the hash map's key uniqueness becomes the
`KeysNodup` predicate below). -/
structure MappedList (T : Type) where
  map : List (Nat × List T)
  deriving DecidableEq, Repr

namespace MappedList

/-- `MappedList::new()`. -/
def new (T : Type) : MappedList T := ⟨[]⟩

/-- Helper for `push_back`: append `val` to the list of `key` when present,
otherwise insert a fresh singleton entry. -/
def pushAux {T : Type} : List (Nat × List T) → Nat → T → List (Nat × List T)
  | [], key, val => [(key, [val])]
  | (k, l) :: rest, key, val =>
      if k = key then (k, l ++ [val]) :: rest
      else (k, l) :: pushAux rest key val

/-- `MappedList::push_back(key, val)` from green.rs lines 102-110. -/
def push_back {T : Type} (m : MappedList T) (key : Nat) (val : T) :
    MappedList T :=
  ⟨pushAux m.map key val⟩

/-- Helper for `pop_front`: pop the front of `key`'s list; if that leaves the
list empty (or it already was), remove the entry for `key`. -/
def popAux {T : Type} : List (Nat × List T) → Nat →
    Option T × List (Nat × List T)
  | [], _ => (none, [])
  | (k, l) :: rest, key =>
      if k = key then
        match l with
        | [] => (none, rest)
        | v :: tl =>
            if tl.length = 0 then (some v, rest) else (some v, (k, tl) :: rest)
      else
        let r := popAux rest key
        (r.1, (k, l) :: r.2)

/-- `MappedList::pop_front(key)` from green.rs lines 112-123: returns the
popped value and the mailbox after the pop (empty per-key entries pruned). -/
def pop_front {T : Type} (m : MappedList T) (key : Nat) :
    Option T × MappedList T :=
  let r := popAux m.map key
  (r.1, ⟨r.2⟩)

/-- Helper for `get`. -/
def getAux {T : Type} : List (Nat × List T) → Nat → List T
  | [], _ => []
  | (k, l) :: rest, key => if k = key then l else getAux rest key

/-- The queue currently held for `key` (the empty list when `key` is absent). -/
def get {T : Type} (m : MappedList T) (key : Nat) : List T :=
  getAux m.map key

/-- Helper for `hasKey`. -/
def hasKeyAux {T : Type} : List (Nat × List T) → Nat → Bool
  | [], _ => false
  | (k, _) :: rest, key => if k = key then true else hasKeyAux rest key

/-- Whether `key` has an entry in the map. -/
def hasKey {T : Type} (m : MappedList T) (key : Nat) : Bool :=
  hasKeyAux m.map key

/-- The hash map's keys are pairwise distinct — automatically true of a
`HashMap`, an explicit predicate on the association-list embedding. -/
def KeysNodup {T : Type} (m : MappedList T) : Prop :=
  (m.map.map Prod.fst).Nodup

/-- The mailbox invariant of the spec: every entry present in the map holds a
non-empty queue. -/
def Inv {T : Type} (m : MappedList T) : Prop :=
  ∀ p ∈ m.map, p.2 ≠ []

end MappedList

/-- A call into the external memory service, in program order. -/
inductive MemEvent where
  /-- `mprotect(addr, len, PROT_NONE)`: revoke all access. -/
  | protectNone (addr len : Nat)
  /-- `mprotect(addr, len, PROT_READ | PROT_WRITE)`: restore read/write. -/
  | protectReadWrite (addr len : Nat)
  /-- `dealloc(addr, layout)`: return the region to the allocator. -/
  | dealloc (addr layout : Nat)
  deriving DecidableEq, Repr

/-- The process-wide mutable state of green.rs lines 131-136: `CTX_MAIN`,
`UNUSED_STACK` (the one-slot deferred-free, `None` standing for the null
pointer), `CONTEXTS` (the ready queue, front = running), `ID` (the live-id
set, a `HashSet<u64>` embedded as a list with set semantics), `MESSAGES`
(the mailbox) and `WAITING` (blocked actors keyed by id, another hash map as
association list). -/
structure RtState where
  ctx_main : Option Registers
  unused_stack : Option (Nat × Nat)
  contexts : List Context
  ids : List Nat
  messages : MappedList Nat
  waiting : List (Nat × Context)
  deriving DecidableEq, Repr

/-- `HashSet::remove`: after removal the element is not a member. -/
def setRemove (l : List Nat) (x : Nat) : List Nat :=
  l.filter (fun y => y ≠ x)

/-- `HashMap::remove(&key)` on the waiting table: the removed context (if
any) and the table without it. -/
def waitingRemove : List (Nat × Context) → Nat →
    Option Context × List (Nat × Context)
  | [], _ => (none, [])
  | (k, c) :: rest, key =>
      if k = key then (some c, rest)
      else
        let r := waitingRemove rest key
        (r.1, (k, c) :: r.2)

/-- `rm_unused_stack()` from green.rs lines 220-226: when the deferred-free
slot is occupied, first restore read/write access on the guard page (the
first `PAGE_SIZE` bytes of the region), then `dealloc` the region, then clear
the slot.  Returns the memory-service calls in order together with the new
state. -/
def rm_unused_stack (s : RtState) : List MemEvent × RtState :=
  match s.unused_stack with
  | none => ([], s)
  | some (p, layout) =>
      ([MemEvent.protectReadWrite p PAGE_SIZE, MemEvent.dealloc p layout],
       { s with unused_stack := none })

/-- What a call to `schedule()` (green.rs lines 200-218) decides before
control can leave the caller. -/
inductive ScheduleOutcome where
  /-- `CONTEXTS.len() == 1`: early return, nothing touched (the deferred-free
  slot is *not* drained on this path). -/
  | noop (s : RtState)
  /-- `CONTEXTS.pop_front().unwrap()` on an empty queue: panic. -/
  | emptyPanic
  /-- The front context was rotated to the tail, its state saved, and on the
  SAVED branch `switch_context` transfers control to `next`, the new front of
  the queue.  `s` is the global state at the instant of the switch. -/
  | switched (s : RtState) (next : Context)
  deriving DecidableEq, Repr

/-- `schedule()` from green.rs lines 200-218, up to the control transfer.
The trailing `rm_unused_stack()` of the function body runs only when the
saved context is later resumed (`switch_context` never returns), so it is the
separate continuation `scheduleResume`. -/
def schedule (s : RtState) : ScheduleOutcome :=
  if s.contexts.length = 1 then ScheduleOutcome.noop s
  else
    match s.contexts with
    | [] => ScheduleOutcome.emptyPanic
    | c :: rest =>
        match rest ++ [c] with
        | [] => ScheduleOutcome.emptyPanic
        | next :: tail =>
            ScheduleOutcome.switched
              { s with contexts := next :: tail } next

/-- The continuation a context saved inside `schedule` runs when it is
resumed: `rm_unused_stack()` (green.rs line 216), then the call returns. -/
def scheduleResume (s : RtState) : List MemEvent × RtState :=
  rm_unused_stack s

/-- The state mutation of `send(key, msg)` (green.rs lines 229-238) before
its trailing `schedule()` call: push the payload onto `key`'s mailbox queue;
if `key` is in the waiting table, move its context to the tail of the ready
queue. -/
def sendCore (key msg : Nat) (s : RtState) : RtState :=
  let msgs := s.messages.push_back key msg
  let r := waitingRemove s.waiting key
  match r.1 with
  | some ctx =>
      { s with messages := msgs, waiting := r.2,
               contexts := s.contexts ++ [ctx] }
  | none => { s with messages := msgs, waiting := r.2 }

/-- `send(key, msg)`: the core mutation followed unconditionally by
`schedule()`. -/
def send (key msg : Nat) (s : RtState) : ScheduleOutcome :=
  schedule (sendCore key msg s)

/-- What a call to `receive()` (green.rs lines 240-265) decides before
control can leave the caller. -/
inductive ReceiveOutcome where
  /-- `CONTEXTS.front().unwrap()` on an empty queue: panic. -/
  | frontPanic
  /-- A payload was already queued: it is popped and returned immediately,
  with no context switch. -/
  | msg (payload : Nat) (s : RtState)
  /-- Empty mailbox and `CONTEXTS.len() == 1`: `panic!("deadlock")`. -/
  | deadlock
  /-- Empty mailbox: the caller was popped from the ready queue, inserted
  into the waiting table under its id, its state saved, and control switched
  to `next`, the new front.  `s` is the state at the instant of the switch. -/
  | blocked (s : RtState) (next : Context)
  deriving DecidableEq, Repr

/-- `receive()` from green.rs lines 240-265, up to the control transfer.
The caller is identified as the front of the ready queue.  The wake-up
continuation (drain the deferred-free slot, retry the pop once) is the
separate `receiveResume`. -/
def receive (s : RtState) : ReceiveOutcome :=
  match s.contexts with
  | [] => ReceiveOutcome.frontPanic
  | c :: rest =>
      let key := c.thread_id
      let r := s.messages.pop_front key
      match r.1 with
      | some m => ReceiveOutcome.msg m { s with messages := r.2 }
      | none =>
          if (c :: rest).length = 1 then ReceiveOutcome.deadlock
          else
            match rest with
            | [] => ReceiveOutcome.frontPanic
            | next :: _ =>
                ReceiveOutcome.blocked
                  { s with messages := r.2, contexts := rest,
                           waiting := (key, c) :: s.waiting }
                  next

/-- The continuation a context blocked in `receive` runs when it is woken
(green.rs lines 261-263): drain the deferred-free slot, then retry the
mailbox pop exactly once and return its (optional) result. -/
def receiveResume (key : Nat) (s : RtState) :
    List MemEvent × (Option Nat × RtState) :=
  let d := rm_unused_stack s
  let r := d.2.messages.pop_front key
  (d.1, (r.1, { d.2 with messages := r.2 }))

/-- What the entry trampoline does once the actor's entry function has
returned (green.rs lines 274-288). -/
inductive EntryFinishOutcome where
  /-- `CONTEXTS.pop_front().unwrap()` on an empty queue: panic. -/
  | emptyPanic
  /-- Another actor is ready: control switches to `next`, the new front. -/
  | toNext (s : RtState) (next : Context)
  /-- No actor is ready: control switches back to the main context. -/
  | toMain (s : RtState)
  /-- No actor ready and no main context: control falls through to
  `panic!("entry point")`. -/
  | noMainPanic (s : RtState)
  deriving DecidableEq, Repr

/-- `entry_point` after the actor's entry function returns, green.rs lines
274-288: pop self from the ready queue, remove self's id from the live-id
set, record self's stack and layout into the deferred-free slot (it cannot be
freed synchronously — the trampoline is still executing on it, so no memory
event is emitted here), then switch to the new front if any, else to main.

Line 276 of green.rs writes `ctx.id`, but `Context` has no field `id` — its
id field is `thread_id` (line 63), so the crate does not compile as written.
The removal is embedded with `thread_id`, the evident intent. -/
def terminationUpdate (s : RtState) (c : Context) (rest : List Context) :
    RtState :=
  { s with contexts := rest,
           ids := setRemove s.ids c.thread_id,
           unused_stack := some (c.stack, c.stack_layout) }

/-- The control decision that follows `terminationUpdate`: switch to the new
front of the ready queue when one exists, else back to the main context. -/
def entry_point_finish (s : RtState) : EntryFinishOutcome :=
  match s.contexts with
  | [] => EntryFinishOutcome.emptyPanic
  | c :: rest =>
      let s' : RtState := terminationUpdate s c rest
      match rest with
      | next :: _ => EntryFinishOutcome.toNext s' next
      | [] =>
          match s'.ctx_main with
          | some _ => EntryFinishOutcome.toMain s'
          | none => EntryFinishOutcome.noMainPanic s'

/-- What a call to `spawn_from_main` (green.rs lines 160-198) decides up to
its first control transfer. -/
inductive SpawnMainOutcome where
  /-- `CTX_MAIN` was already set: `panic!("spawn_from_main is called twice")`,
  with the global state exactly as the caller left it. -/
  | doublePanic (s : RtState)
  /-- First call: globals initialised, main context saved, the first actor's
  context built and pushed, and control switched to it. -/
  | started (s : RtState) (first : Context)
  deriving DecidableEq, Repr

/-- `spawn_from_main(func, stack_size)` up to the switch into the first
actor, green.rs lines 160-181: panic if `CTX_MAIN` is already set, before any
global is touched; otherwise set `CTX_MAIN`, reset `MESSAGES`/`WAITING`/`ID`
to fresh empties, generate an id (`get_id` draws random values until one is
unused; the drawn id is the parameter `newId`), push the first actor's
context and switch to it.  `stackBase` is the address the allocator returned
for that actor's stack. -/
def spawn_from_main (stack_size newId stackBase : Nat) (s : RtState) :
    SpawnMainOutcome :=
  if s.ctx_main.isSome then SpawnMainOutcome.doublePanic s
  else
    let first := Context.new stackBase stack_size newId
    SpawnMainOutcome.started
      { s with ctx_main := some (Registers.new 0),
               messages := MappedList.new Nat,
               waiting := [],
               ids := [newId],
               contexts := s.contexts ++ [first] }
      first

/-- The pure state effect of one full `schedule` round as seen by the
scheduler state once control has settled again: on the no-op path the state
is untouched; on the switch path the queue is rotated and — when the rotated
context is eventually resumed — the deferred-free slot is drained.  Used to
express "any number of schedule rounds elapse". -/
def scheduleRound (s : RtState) : RtState :=
  match schedule s with
  | ScheduleOutcome.noop t => t
  | ScheduleOutcome.emptyPanic => s
  | ScheduleOutcome.switched t _ => (rm_unused_stack t).2

/-- `n` consecutive `scheduleRound`s. -/
def schedN : Nat → RtState → RtState
  | 0, s => s
  | n + 1, s => schedN n (scheduleRound s)

/-- The pure state effect of a full `send(key, msg)` call: the core mutation
followed by a `schedule` round. -/
def sendRound (key msg : Nat) (s : RtState) : RtState :=
  scheduleRound (sendCore key msg s)

/-- Lookup in the waiting table (what `HashMap::get` would return). -/
def waitingLookup : List (Nat × Context) → Nat → Option Context
  | [], _ => none
  | (k, c) :: rest, key => if k = key then some c else waitingLookup rest key

namespace MappedList

theorem getAux_eq_nil_of_not_mem {T : Type} (l : List (Nat × List T))
    (key : Nat) (h : key ∉ l.map Prod.fst) : getAux l key = [] := by
  induction l with
  | nil => rfl
  | cons p rest ih =>
      obtain ⟨k, q⟩ := p
      simp only [List.map_cons, List.mem_cons] at h
      push_neg at h
      have hk : ¬ k = key := fun hkk => h.1 hkk.symm
      simp only [getAux, if_neg hk]
      exact ih h.2

theorem pushAux_get_self {T : Type} (l : List (Nat × List T)) (key : Nat)
    (v : T) : getAux (pushAux l key v) key = getAux l key ++ [v] := by
  induction l with
  | nil => simp [pushAux, getAux]
  | cons p rest ih =>
      obtain ⟨k, q⟩ := p
      by_cases h : k = key <;> simp [pushAux, getAux, h, ih]

theorem pushAux_get_other {T : Type} (l : List (Nat × List T))
    (key k' : Nat) (v : T) (h : k' ≠ key) :
    getAux (pushAux l key v) k' = getAux l k' := by
  induction l with
  | nil => simp [pushAux, getAux, Ne.symm h]
  | cons p rest ih =>
      obtain ⟨k, q⟩ := p
      by_cases hk : k = key
      · subst hk
        simp [pushAux, getAux, Ne.symm h]
      · simp only [pushAux, if_neg hk]
        by_cases hk' : k = k' <;> simp [getAux, hk', ih]

theorem popAux_fst {T : Type} (l : List (Nat × List T)) (key : Nat) :
    (popAux l key).1 = (getAux l key).head? := by
  induction l with
  | nil => simp [popAux, getAux]
  | cons p rest ih =>
      obtain ⟨k, q⟩ := p
      by_cases h : k = key
      · cases q with
        | nil => simp [popAux, getAux, h]
        | cons v tl =>
            by_cases htl : tl.length = 0 <;> simp [popAux, getAux, h, htl]
      · simp [popAux, getAux, h, ih]

theorem popAux_get_self {T : Type} (l : List (Nat × List T)) (key : Nat)
    (h : (l.map Prod.fst).Nodup) :
    getAux (popAux l key).2 key = (getAux l key).tail := by
  induction l with
  | nil => simp [popAux, getAux]
  | cons p rest ih =>
      obtain ⟨k, q⟩ := p
      simp only [List.map_cons, List.nodup_cons] at h
      by_cases hk : k = key
      · subst hk
        have hnil : getAux rest k = [] :=
          getAux_eq_nil_of_not_mem rest k h.1
        cases q with
        | nil => simp [popAux, getAux, hnil]
        | cons v tl =>
            by_cases htl : tl.length = 0
            · have : tl = [] := List.length_eq_zero.mp htl
              subst this
              simp [popAux, getAux, htl, hnil]
            · simp [popAux, getAux, htl]
      · simp [popAux, getAux, hk, ih h.2]

theorem popAux_get_other {T : Type} (l : List (Nat × List T))
    (key k' : Nat) (h : k' ≠ key) :
    getAux (popAux l key).2 k' = getAux l k' := by
  induction l with
  | nil => simp [popAux, getAux]
  | cons p rest ih =>
      obtain ⟨k, q⟩ := p
      by_cases hk : k = key
      · subst hk
        cases q with
        | nil => simp [getAux, popAux, Ne.symm h]
        | cons v tl =>
            by_cases htl : tl.length = 0 <;>
              simp [popAux, getAux, htl, Ne.symm h]
      · have hstep : popAux ((k, q) :: rest) key =
            ((popAux rest key).1, (k, q) :: (popAux rest key).2) := by
          simp [popAux, hk]
        rw [hstep]
        by_cases hk' : k = k' <;> simp [getAux, hk', ih]

theorem mem_keys_pushAux {T : Type} (l : List (Nat × List T))
    (key x : Nat) (v : T) :
    x ∈ (pushAux l key v).map Prod.fst ↔ x ∈ l.map Prod.fst ∨ x = key := by
  induction l with
  | nil => simp [pushAux]
  | cons p rest ih =>
      obtain ⟨k, q⟩ := p
      by_cases h : k = key
      · subst h
        simp [pushAux]
        tauto
      · simp [pushAux, h, ih]
        tauto

theorem pushAux_keysNodup {T : Type} (l : List (Nat × List T))
    (key : Nat) (v : T) (h : (l.map Prod.fst).Nodup) :
    ((pushAux l key v).map Prod.fst).Nodup := by
  induction l with
  | nil => simp [pushAux]
  | cons p rest ih =>
      obtain ⟨k, q⟩ := p
      simp only [List.map_cons, List.nodup_cons] at h
      by_cases hk : k = key
      · subst hk
        have hstep : pushAux ((k, q) :: rest) k v =
            (k, q ++ [v]) :: rest := by
          simp [pushAux]
        rw [hstep, List.map_cons]
        exact List.nodup_cons.mpr ⟨h.1, h.2⟩
      · have hstep : pushAux ((k, q) :: rest) key v =
            (k, q) :: pushAux rest key v := by
          simp [pushAux, hk]
        rw [hstep, List.map_cons]
        refine List.nodup_cons.mpr ⟨?_, ih h.2⟩
        intro hmem
        rcases (mem_keys_pushAux rest key k v).mp hmem with hin | hkey
        · exact h.1 hin
        · exact hk hkey

theorem popAux_keys_sublist {T : Type} (l : List (Nat × List T))
    (key : Nat) :
    ((popAux l key).2.map Prod.fst).Sublist (l.map Prod.fst) := by
  induction l with
  | nil => simp [popAux]
  | cons p rest ih =>
      obtain ⟨k, q⟩ := p
      by_cases hk : k = key
      · subst hk
        cases q with
        | nil =>
            have hstep : popAux ((k, ([] : List T)) :: rest) k =
                (none, rest) := by
              simp [popAux]
            rw [hstep, List.map_cons]
            exact List.sublist_cons_self _ _
        | cons v tl =>
            by_cases htl : tl.length = 0
            · have hstep : popAux ((k, v :: tl) :: rest) k =
                  (some v, rest) := by
                simp [popAux, htl]
              rw [hstep, List.map_cons]
              exact List.sublist_cons_self _ _
            · have hstep : popAux ((k, v :: tl) :: rest) k =
                  (some v, (k, tl) :: rest) := by
                simp [popAux, htl]
              rw [hstep, List.map_cons, List.map_cons]
      · have hstep : popAux ((k, q) :: rest) key =
            ((popAux rest key).1, (k, q) :: (popAux rest key).2) := by
          simp [popAux, hk]
        rw [hstep, List.map_cons]
        exact List.Sublist.cons₂ _ ih

theorem popAux_keysNodup {T : Type} (l : List (Nat × List T)) (key : Nat)
    (h : (l.map Prod.fst).Nodup) :
    ((popAux l key).2.map Prod.fst).Nodup :=
  (popAux_keys_sublist l key).nodup h

/-- `push_back` on `key` appends to exactly `key`'s queue. -/
theorem get_push_back {T : Type} (m : MappedList T) (key : Nat) (v : T) :
    (m.push_back key v).get key = m.get key ++ [v] :=
  pushAux_get_self m.map key v

theorem get_push_back_other {T : Type} (m : MappedList T) (key k' : Nat)
    (v : T) (h : k' ≠ key) : (m.push_back key v).get k' = m.get k' :=
  pushAux_get_other m.map key k' v h

/-- `pop_front` returns the head of `key`'s queue. -/
theorem pop_front_fst {T : Type} (m : MappedList T) (key : Nat) :
    (m.pop_front key).1 = (m.get key).head? :=
  popAux_fst m.map key

/-- `pop_front` leaves the tail of `key`'s queue. -/
theorem pop_front_get {T : Type} (m : MappedList T) (key : Nat)
    (h : m.KeysNodup) : (m.pop_front key).2.get key = (m.get key).tail :=
  popAux_get_self m.map key h

theorem pop_front_get_other {T : Type} (m : MappedList T) (key k' : Nat)
    (h : k' ≠ key) : (m.pop_front key).2.get k' = m.get k' :=
  popAux_get_other m.map key k' h

theorem keysNodup_push_back {T : Type} (m : MappedList T) (key : Nat)
    (v : T) (h : m.KeysNodup) : (m.push_back key v).KeysNodup :=
  pushAux_keysNodup m.map key v h

theorem keysNodup_pop_front {T : Type} (m : MappedList T) (key : Nat)
    (h : m.KeysNodup) : (m.pop_front key).2.KeysNodup :=
  popAux_keysNodup m.map key h

theorem pushAux_inv {T : Type} (l : List (Nat × List T)) (key : Nat) (v : T)
    (h : ∀ p ∈ l, p.2 ≠ []) : ∀ p ∈ pushAux l key v, p.2 ≠ [] := by
  induction l with
  | nil =>
      intro p hp
      simp only [pushAux, List.mem_singleton] at hp
      subst hp
      simp
  | cons q rest ih =>
      obtain ⟨k, ql⟩ := q
      by_cases hk : k = key
      · subst hk
        intro p hp
        have hstep : pushAux ((k, ql) :: rest) k v = (k, ql ++ [v]) :: rest := by
          simp [pushAux]
        rw [hstep] at hp
        rcases List.mem_cons.mp hp with hEq | hmem
        · subst hEq
          simp
        · exact h p (List.mem_cons_of_mem _ hmem)
      · intro p hp
        have hstep : pushAux ((k, ql) :: rest) key v =
            (k, ql) :: pushAux rest key v := by
          simp [pushAux, hk]
        rw [hstep] at hp
        rcases List.mem_cons.mp hp with hEq | hmem
        · subst hEq
          exact h (k, ql) (List.mem_cons_self _ _)
        · exact ih (fun p hp => h p (List.mem_cons_of_mem _ hp)) p hmem

theorem popAux_inv {T : Type} (l : List (Nat × List T)) (key : Nat)
    (h : ∀ p ∈ l, p.2 ≠ []) : ∀ p ∈ (popAux l key).2, p.2 ≠ [] := by
  induction l with
  | nil =>
      intro p hp
      simp [popAux] at hp
  | cons q rest ih =>
      obtain ⟨k, ql⟩ := q
      have hrest : ∀ p ∈ rest, p.2 ≠ [] :=
        fun p hp => h p (List.mem_cons_of_mem _ hp)
      by_cases hk : k = key
      · subst hk
        cases ql with
        | nil =>
            have hstep : popAux ((k, ([] : List T)) :: rest) k = (none, rest) := by
              simp [popAux]
            rw [hstep]
            exact hrest
        | cons v tl =>
            by_cases htl : tl.length = 0
            · have hstep : popAux ((k, v :: tl) :: rest) k = (some v, rest) := by
                simp [popAux, htl]
              rw [hstep]
              exact hrest
            · have hstep : popAux ((k, v :: tl) :: rest) k =
                  (some v, (k, tl) :: rest) := by
                simp [popAux, htl]
              rw [hstep]
              intro p hp
              rcases List.mem_cons.mp hp with hEq | hmem
              · subst hEq
                simpa using List.length_eq_zero.not.mp htl
              · exact hrest p hmem
      · have hstep : popAux ((k, ql) :: rest) key =
            ((popAux rest key).1, (k, ql) :: (popAux rest key).2) := by
          simp [popAux, hk]
        rw [hstep]
        intro p hp
        rcases List.mem_cons.mp hp with hEq | hmem
        · subst hEq
          exact h (k, ql) (List.mem_cons_self _ _)
        · exact ih hrest p hmem

/-- Push on an absent key creates the entry. -/
theorem hasKeyAux_pushAux {T : Type} (l : List (Nat × List T)) (key : Nat)
    (v : T) : hasKeyAux (pushAux l key v) key = true := by
  induction l with
  | nil => simp [pushAux, hasKeyAux]
  | cons p rest ih =>
      obtain ⟨k, q⟩ := p
      by_cases hk : k = key <;> simp [pushAux, hasKeyAux, hk, ih]

theorem getAux_eq_nil_of_hasKeyAux_false {T : Type}
    (l : List (Nat × List T)) (key : Nat) (h : hasKeyAux l key = false) :
    getAux l key = [] := by
  induction l with
  | nil => rfl
  | cons p rest ih =>
      obtain ⟨k, q⟩ := p
      by_cases hk : k = key
      · simp [hasKeyAux, hk] at h
      · simp only [hasKeyAux, if_neg hk] at h
        simp only [getAux, if_neg hk]
        exact ih h

end MappedList

theorem waitingRemove_fst (w : List (Nat × Context)) (key : Nat) :
    (waitingRemove w key).1 = waitingLookup w key := by
  induction w with
  | nil => rfl
  | cons p rest ih =>
      obtain ⟨k, c⟩ := p
      by_cases hk : k = key <;> simp [waitingRemove, waitingLookup, hk, ih]

theorem waitingRemove_of_lookup_none (w : List (Nat × Context)) (key : Nat)
    (h : waitingLookup w key = none) : (waitingRemove w key).2 = w := by
  induction w with
  | nil => rfl
  | cons p rest ih =>
      obtain ⟨k, c⟩ := p
      by_cases hk : k = key
      · simp [waitingLookup, hk] at h
      · simp only [waitingLookup, if_neg hk] at h
        simp [waitingRemove, hk, ih h]

theorem waitingLookup_eq_none_of_not_mem (w : List (Nat × Context))
    (key : Nat) (h : key ∉ w.map Prod.fst) : waitingLookup w key = none := by
  induction w with
  | nil => rfl
  | cons p rest ih =>
      obtain ⟨k, c⟩ := p
      simp only [List.map_cons, List.mem_cons] at h
      push_neg at h
      have hk : ¬ k = key := fun hkk => h.1 hkk.symm
      simp only [waitingLookup, if_neg hk]
      exact ih h.2

/-- After `HashMap::remove(&key)` the key is gone (hash-map keys are
pairwise distinct). -/
theorem waitingLookup_remove_self (w : List (Nat × Context)) (key : Nat)
    (h : (w.map Prod.fst).Nodup) :
    waitingLookup (waitingRemove w key).2 key = none := by
  induction w with
  | nil => rfl
  | cons p rest ih =>
      obtain ⟨k, c⟩ := p
      simp only [List.map_cons, List.nodup_cons] at h
      by_cases hk : k = key
      · subst hk
        simp only [waitingRemove, if_pos rfl]
        exact waitingLookup_eq_none_of_not_mem rest k h.1
      · simp only [waitingRemove, if_neg hk]
        simp only [waitingLookup, if_neg hk]
        exact ih h.2

/-- Draining the deferred-free slot only clears the slot; every other
component of the state is untouched. -/
theorem rm_unused_stack_state (s : RtState) :
    (rm_unused_stack s).2 = { s with unused_stack := none } := by
  rcases hu : s.unused_stack with _ | ⟨p, layout⟩
  · simp only [rm_unused_stack, hu]
    cases s
    simp_all
  · simp [rm_unused_stack, hu]

theorem rm_unused_stack_messages (s : RtState) :
    ((rm_unused_stack s).2).messages = s.messages := by
  rw [rm_unused_stack_state]

/-- A `schedule` round never touches the mailbox. -/
theorem scheduleRound_messages (s : RtState) :
    (scheduleRound s).messages = s.messages := by
  unfold scheduleRound schedule
  by_cases h : s.contexts.length = 1
  · simp [h]
  · rcases hc : s.contexts with _ | ⟨c, rest⟩
    · simp [h, hc]
    · have hrest : rest ≠ [] := by
        intro he
        rw [he] at hc
        rw [hc] at h
        simp at h
      rcases hr : rest ++ [c] with _ | ⟨next, tail⟩
      · simp at hr
      · simp [h, hc, hr, hrest, rm_unused_stack_messages]

theorem schedN_messages (n : Nat) (s : RtState) :
    (schedN n s).messages = s.messages := by
  induction n generalizing s with
  | zero => rfl
  | succ n ih => rw [schedN, ih, scheduleRound_messages]

/-- The mailbox after `send`'s core mutation is exactly a `push_back`. -/
theorem sendCore_messages (key msg : Nat) (s : RtState) :
    (sendCore key msg s).messages = s.messages.push_back key msg := by
  unfold sendCore
  rcases hr : (waitingRemove s.waiting key).1 with _ | ctx <;> simp [hr]

theorem sendRound_messages (key msg : Nat) (s : RtState) :
    (sendRound key msg s).messages = s.messages.push_back key msg := by
  rw [sendRound, scheduleRound_messages, sendCore_messages]

/-- `schedule` can only panic when the ready queue is empty. -/
theorem schedule_ne_emptyPanic (s : RtState) (h : s.contexts ≠ []) :
    schedule s ≠ ScheduleOutcome.emptyPanic := by
  unfold schedule
  by_cases h1 : s.contexts.length = 1
  · simp [h1]
  · rcases hc : s.contexts with _ | ⟨c, rest⟩
    · exact absurd hc h
    · have hrest : rest ≠ [] := by
        intro he
        rw [he] at hc
        rw [hc] at h1
        simp at h1
      rcases hr : rest ++ [c] with _ | ⟨next, tail⟩
      · simp at hr
      · simp [h1, hc, hr, hrest]

/-- `receive` when the front actor's mailbox queue is non-empty: the head is
returned immediately and only the mailbox changes. -/
theorem receive_hit (s : RtState) (c : Context) (rest : List Context)
    (v : Nat) (tl : List Nat) (hc : s.contexts = c :: rest)
    (hget : s.messages.get c.thread_id = v :: tl) :
    receive s = ReceiveOutcome.msg v
      { s with messages := (s.messages.pop_front c.thread_id).2 } := by
  have hfst : (s.messages.pop_front c.thread_id).1 = some v := by
    rw [MappedList.pop_front_fst, hget]
    rfl
  unfold receive
  rw [hc]
  simp [hfst]

/-- A sample actor on a stack at 4096 of 8192 bytes, id 1. -/
def ctxA : Context := Context.new 4096 8192 1

/-- A sample actor on a stack at 20480 of 8192 bytes, id 2. -/
def ctxB : Context := Context.new 20480 8192 2

/-- Sample state: one ready actor, nothing else. -/
def stA : RtState :=
  { ctx_main := none, unused_stack := none, contexts := [ctxA],
    ids := [1], messages := MappedList.new Nat, waiting := [] }

/-- Sample state: two ready actors. -/
def stAB : RtState :=
  { ctx_main := none, unused_stack := none, contexts := [ctxA, ctxB],
    ids := [1, 2], messages := MappedList.new Nat, waiting := [] }

/-- Sample state: a session already bootstrapped (main context saved). -/
def stMain : RtState :=
  { ctx_main := some (Registers.new 0), unused_stack := none,
    contexts := [], ids := [], messages := MappedList.new Nat,
    waiting := [] }

/-- Sample state: the deferred-free slot holds the stack at 4096. -/
def stSlot : RtState :=
  { ctx_main := none, unused_stack := some (4096, 8192), contexts := [],
    ids := [], messages := MappedList.new Nat, waiting := [] }

/-- **C4.** `schedule()` is a no-op returning with the state unchanged when
exactly one actor is in the ready queue; with more than one ready actor it
pops the front context, pushes that same context to the tail (one round-robin
rotation), saves its state, and on the SAVED branch resumes the context that
is then at the front of the rotated queue. -/
theorem claim4_schedule_rotation (s : RtState) :
    (s.contexts.length = 1 → schedule s = ScheduleOutcome.noop s) ∧
    (∀ c rest, s.contexts = c :: rest → rest ≠ [] →
      ∃ next tail,
        schedule s =
          ScheduleOutcome.switched { s with contexts := rest ++ [c] } next ∧
        rest ++ [c] = next :: tail) := by
  constructor
  · intro h
    unfold schedule
    simp [h]
  · intro c rest hc hrest
    have hlen : ¬ s.contexts.length = 1 := by
      rw [hc]
      simp [hrest]
    rcases hr : rest ++ [c] with _ | ⟨next, tail⟩
    · simp at hr
    · refine ⟨next, tail, ?_, rfl⟩
      unfold schedule
      rw [hc]
      simp [hrest, hr]

/-- Closed instance of `claim4_schedule_rotation`: a two-actor queue is
rotated and the former second actor is resumed; a one-actor queue is left
alone. -/
theorem claim4_schedule_rotation_witness :
    (schedule stAB =
      ScheduleOutcome.switched { stAB with contexts := [ctxB, ctxA] } ctxB) ∧
    schedule stA = ScheduleOutcome.noop stA := by
  constructor
  · obtain ⟨next, tail, hs, hr⟩ :=
      (claim4_schedule_rotation stAB).2 ctxA [ctxB] rfl (by decide)
    have hnext : next = ctxB := by
      simp at hr
      exact hr.1.symm
    rw [hnext] at hs
    exact hs
  · exact (claim4_schedule_rotation stA).1 rfl

/-- **C6.** `receive()` with no pending payload for the lone ready actor
(queue length 1) takes the fatal deadlock path: it returns the
`panic!("deadlock")` outcome, never the blocking outcome. -/
theorem claim6_receive_deadlock (s : RtState) (c : Context)
    (hc : s.contexts = [c]) (hm : s.messages.get c.thread_id = []) :
    receive s = ReceiveOutcome.deadlock := by
  have hfst : (s.messages.pop_front c.thread_id).1 = none := by
    rw [MappedList.pop_front_fst, hm]
    rfl
  unfold receive
  rw [hc]
  simp [hfst]

/-- Closed instance of `claim6_receive_deadlock`: one ready actor, empty
mailbox, `receive` hits the deadlock panic. -/
theorem claim6_receive_deadlock_witness :
    receive stA = ReceiveOutcome.deadlock :=
  claim6_receive_deadlock stA ctxA rfl rfl

/-- **C7.** Calling `spawn_from_main` while the main context saved by a
prior call is still set is a fatal usage error: the call panics with the
process-wide scheduler state exactly as it was before the call. -/
theorem claim7_spawn_from_main_twice (stack_size newId stackBase : Nat)
    (s : RtState) (h : s.ctx_main.isSome) :
    spawn_from_main stack_size newId stackBase s =
      SpawnMainOutcome.doublePanic s := by
  unfold spawn_from_main
  simp [h]

/-- Closed instance of `claim7_spawn_from_main_twice`. -/
theorem claim7_spawn_from_main_twice_witness :
    spawn_from_main 8192 1 4096 stMain = SpawnMainOutcome.doublePanic stMain :=
  claim7_spawn_from_main_twice 8192 1 4096 stMain rfl

/-- **C8.** The mailbox map never holds an entry with an empty queue:
`push_back` and `pop_front` both preserve the invariant that every id
present in the map maps to a non-empty message queue (popping the last
message of an id removes the id's entry). -/
theorem claim8_mailbox_no_empty_entry {T : Type} (m : MappedList T)
    (key : Nat) (v : T) (h : m.Inv) :
    (m.push_back key v).Inv ∧ ((m.pop_front key).2).Inv :=
  ⟨MappedList.pushAux_inv m.map key v h,
   MappedList.popAux_inv m.map key h⟩

/-- Closed instance of `claim8_mailbox_no_empty_entry`: popping the single
message of id 7 prunes the entry, pushing creates a singleton entry. -/
theorem claim8_mailbox_no_empty_entry_witness :
    (MappedList.push_back (⟨[(7, [5])]⟩ : MappedList Nat) 9 4).Inv ∧
    ((MappedList.pop_front (⟨[(7, [5])]⟩ : MappedList Nat) 9).2).Inv :=
  claim8_mailbox_no_empty_entry (⟨[(7, [5])]⟩ : MappedList Nat) 9 4
    (by simp [MappedList.Inv])

/-- **C9.** Draining the deferred-free slot performs, in this order: restore
read/write access on the guard page (the first `PAGE_SIZE` bytes of the
region) and only then deallocate the region — so the region is never freed
while its guard page is still protected — and afterwards the slot is empty. -/
theorem claim9_deferred_free_order (s : RtState) (p layout : Nat)
    (h : s.unused_stack = some (p, layout)) :
    (rm_unused_stack s).1 =
      [MemEvent.protectReadWrite p PAGE_SIZE, MemEvent.dealloc p layout] ∧
    ((rm_unused_stack s).2).unused_stack = none := by
  unfold rm_unused_stack
  rw [h]
  exact ⟨rfl, rfl⟩

/-- Closed instance of `claim9_deferred_free_order`. -/
theorem claim9_deferred_free_order_witness :
    (rm_unused_stack stSlot).1 =
      [MemEvent.protectReadWrite 4096 PAGE_SIZE, MemEvent.dealloc 4096 8192] ∧
    ((rm_unused_stack stSlot).2).unused_stack = none :=
  claim9_deferred_free_order stSlot 4096 8192 rfl

/-- **C2.** `send(key, msg)` appends the payload to `key`'s mailbox queue;
it moves `key`'s context from the waiting table to the tail of the ready
queue exactly when `key` is present in the waiting table (a send to an id
that is not waiting only enqueues and moves no context); and it then invokes
`schedule()` unconditionally. -/
theorem claim2_send (s : RtState) (key msg : Nat) :
    ((sendCore key msg s).messages.get key = s.messages.get key ++ [msg]) ∧
    (∀ ctx, waitingLookup s.waiting key = some ctx →
      (sendCore key msg s).contexts = s.contexts ++ [ctx] ∧
      (sendCore key msg s).waiting = (waitingRemove s.waiting key).2 ∧
      ((s.waiting.map Prod.fst).Nodup →
        waitingLookup (sendCore key msg s).waiting key = none)) ∧
    (waitingLookup s.waiting key = none →
      (sendCore key msg s).contexts = s.contexts ∧
      (sendCore key msg s).waiting = s.waiting) ∧
    send key msg s = schedule (sendCore key msg s) := by
  refine ⟨?_, ?_, ?_, rfl⟩
  · rw [sendCore_messages]
    exact MappedList.get_push_back s.messages key msg
  · intro ctx h
    have hr : (waitingRemove s.waiting key).1 = some ctx := by
      rw [waitingRemove_fst]
      exact h
    refine ⟨?_, ?_, ?_⟩
    · simp [sendCore, hr]
    · simp [sendCore, hr]
    · intro hnodup
      have : (sendCore key msg s).waiting = (waitingRemove s.waiting key).2 := by
        simp [sendCore, hr]
      rw [this]
      exact waitingLookup_remove_self s.waiting key hnodup
  · intro h
    have hr : (waitingRemove s.waiting key).1 = none := by
      rw [waitingRemove_fst]
      exact h
    constructor
    · simp [sendCore, hr]
    · have : (sendCore key msg s).waiting = (waitingRemove s.waiting key).2 := by
        simp [sendCore, hr]
      rw [this]
      exact waitingRemove_of_lookup_none s.waiting key h

/-- Sample state: actor 1 ready, actor 2 blocked in the waiting table. -/
def stWait : RtState :=
  { ctx_main := none, unused_stack := none, contexts := [ctxA],
    ids := [1, 2], messages := MappedList.new Nat, waiting := [(2, ctxB)] }

/-- Closed instance of `claim2_send`: sending to the waiting id 2 appends
the payload, wakes `ctxB` to the queue tail and empties the waiting table;
sending to the non-waiting id 3 moves nothing. -/
theorem claim2_send_witness :
    (sendCore 2 42 stWait).messages.get 2 = [42] ∧
    (sendCore 2 42 stWait).contexts = [ctxA, ctxB] ∧
    waitingLookup (sendCore 2 42 stWait).waiting 2 = none ∧
    (sendCore 3 7 stWait).contexts = stWait.contexts ∧
    (sendCore 3 7 stWait).waiting = stWait.waiting ∧
    send 2 42 stWait = schedule (sendCore 2 42 stWait) := by
  have h2 := claim2_send stWait 2 42
  have h3 := claim2_send stWait 3 7
  have hmove := h2.2.1 ctxB rfl
  exact ⟨h2.1, hmove.1, hmove.2.2 (by decide), (h3.2.2.1 rfl).1,
    (h3.2.2.1 rfl).2, h2.2.2.2⟩

/-- **C3.** `receive()` identifies the caller as the front of the ready
queue; when the mailbox already holds a payload for that id it pops and
returns it immediately with no context switch and no change to the ready
queue or the waiting table; and the wake-up continuation retries the mailbox
pop exactly once, returning no value (instead of looping) when the mailbox
for the id is still empty. -/
theorem claim3_receive (s : RtState) (c : Context) (rest : List Context)
    (hc : s.contexts = c :: rest) :
    (∀ v tl, s.messages.get c.thread_id = v :: tl →
      ∃ s1, receive s = ReceiveOutcome.msg v s1 ∧
        s1.contexts = s.contexts ∧ s1.waiting = s.waiting) ∧
    (∀ key t, (receiveResume key t).2.1 = (t.messages.get key).head? ∧
      (t.messages.get key = [] → (receiveResume key t).2.1 = none)) := by
  constructor
  · intro v tl hget
    refine ⟨{ s with messages := (s.messages.pop_front c.thread_id).2 },
      receive_hit s c rest v tl hc hget, rfl, rfl⟩
  · intro key t
    have hone : (receiveResume key t).2.1 = (t.messages.get key).head? := by
      unfold receiveResume
      simp only [MappedList.pop_front_fst, rm_unused_stack_messages]
    refine ⟨hone, ?_⟩
    intro hnil
    rw [hone, hnil]
    rfl

/-- Sample state: one ready actor (id 1) whose mailbox already holds 9. -/
def stAMsg : RtState :=
  { ctx_main := none, unused_stack := none, contexts := [ctxA],
    ids := [1], messages := ⟨[(1, [9])]⟩, waiting := [] }

/-- Closed instance of `claim3_receive`: a queued payload is returned
immediately without touching the ready queue or the waiting table, and the
wake-up retry on an empty mailbox yields no value. -/
theorem claim3_receive_witness :
    (∃ s1, receive stAMsg = ReceiveOutcome.msg 9 s1 ∧
      s1.contexts = stAMsg.contexts ∧ s1.waiting = stAMsg.waiting) ∧
    (receiveResume 5 stA).2.1 = none := by
  have h := claim3_receive stAMsg ctxA [] rfl
  exact ⟨h.1 9 [] rfl, (h.2 5 stA).2 rfl⟩

/-- **C10.** `send(id, payload)` to an id that no live actor holds (present
in neither the ready queue nor the waiting table) still succeeds: a fresh
mailbox queue is created for the id holding exactly the payload, no context
is moved, no panic is reported to the sender (the trailing `schedule` cannot
fail while the sender itself is ready), and the message stays pending across
any number of later schedule rounds. -/
theorem claim10_send_unknown_id (s : RtState) (key msg : Nat)
    (hw : waitingLookup s.waiting key = none)
    (_hready : ∀ c ∈ s.contexts, c.thread_id ≠ key)
    (hm : s.messages.hasKey key = false)
    (hc : s.contexts ≠ []) :
    (sendCore key msg s).messages.get key = [msg] ∧
    (sendCore key msg s).messages.hasKey key = true ∧
    (sendCore key msg s).contexts = s.contexts ∧
    (sendCore key msg s).waiting = s.waiting ∧
    send key msg s ≠ ScheduleOutcome.emptyPanic ∧
    (∀ n, (schedN n (sendRound key msg s)).messages.get key = [msg]) := by
  have hnil : s.messages.get key = [] :=
    MappedList.getAux_eq_nil_of_hasKeyAux_false s.messages.map key hm
  have hpush : (sendCore key msg s).messages.get key = [msg] := by
    rw [sendCore_messages, MappedList.get_push_back, hnil]
    rfl
  have hr : (waitingRemove s.waiting key).1 = none := by
    rw [waitingRemove_fst]
    exact hw
  have hctx : (sendCore key msg s).contexts = s.contexts := by
    simp [sendCore, hr]
  refine ⟨hpush, ?_, hctx, ?_, ?_, ?_⟩
  · rw [sendCore_messages]
    exact MappedList.hasKeyAux_pushAux s.messages.map key msg
  · have : (sendCore key msg s).waiting = (waitingRemove s.waiting key).2 := by
      simp [sendCore, hr]
    rw [this]
    exact waitingRemove_of_lookup_none s.waiting key hw
  · have : (sendCore key msg s).contexts ≠ [] := by
      rw [hctx]
      exact hc
    exact schedule_ne_emptyPanic (sendCore key msg s) this
  · intro n
    rw [schedN_messages, sendRound_messages, MappedList.get_push_back, hnil]
    rfl

/-- Closed instance of `claim10_send_unknown_id`: sending 7 to the dead id
99 from the one-actor state. -/
theorem claim10_send_unknown_id_witness :
    (sendCore 99 7 stA).messages.get 99 = [7] ∧
    (sendCore 99 7 stA).messages.hasKey 99 = true ∧
    (sendCore 99 7 stA).contexts = stA.contexts ∧
    (sendCore 99 7 stA).waiting = stA.waiting ∧
    send 99 7 stA ≠ ScheduleOutcome.emptyPanic ∧
    (schedN 3 (sendRound 99 7 stA)).messages.get 99 = [7] := by
  have h := claim10_send_unknown_id stA 99 7 rfl (by decide) rfl (by decide)
  exact ⟨h.1, h.2.1, h.2.2.1, h.2.2.2.1, h.2.2.2.2.1, h.2.2.2.2.2 3⟩

/-- One successful immediate `receive` step, tracking the facts needed to
chain further receives: the ready queue and the key uniqueness of the
mailbox are untouched and the popped queue loses its head. -/
theorem receive_cons_step (t : RtState) (c : Context) (rest : List Context)
    (id v : Nat) (q : List Nat) (hc : t.contexts = c :: rest)
    (hid : c.thread_id = id) (hnodup : t.messages.KeysNodup)
    (hget : t.messages.get id = v :: q) :
    ∃ u, receive t = ReceiveOutcome.msg v u ∧ u.contexts = c :: rest ∧
      u.messages.KeysNodup ∧ u.messages.get id = q := by
  refine ⟨{ t with messages := (t.messages.pop_front c.thread_id).2 },
    ?_, hc, ?_, ?_⟩
  · refine receive_hit t c rest v q hc ?_
    rw [hid]
    exact hget
  · exact MappedList.keysNodup_pop_front t.messages c.thread_id hnodup
  · show ((t.messages.pop_front c.thread_id).2).get id = q
    rw [hid, MappedList.pop_front_get t.messages id hnodup, hget]
    rfl

/-- **C1.** Per-actor mailbox order is FIFO: with `id`'s queue initially
empty, after `send(id, m1)`, `send(id, m2)`, `send(id, m3)` — each a
mailbox push followed by a schedule round, with arbitrarily many further
schedule rounds in between — three successive successful `receive()` calls
by the actor with that id return `m1`, `m2`, `m3` in that order. -/
theorem claim1_mailbox_fifo (s : RtState) (id m1 m2 m3 n1 n2 n3 : Nat)
    (c : Context) (rest : List Context)
    (hnodup : s.messages.KeysNodup)
    (hempty : s.messages.get id = [])
    (hc : (schedN n3 (sendRound id m3 (schedN n2 (sendRound id m2
        (schedN n1 (sendRound id m1 s)))))).contexts = c :: rest)
    (hid : c.thread_id = id) :
    ∃ t1 t2 t3,
      receive (schedN n3 (sendRound id m3 (schedN n2 (sendRound id m2
          (schedN n1 (sendRound id m1 s)))))) = ReceiveOutcome.msg m1 t1 ∧
      receive t1 = ReceiveOutcome.msg m2 t2 ∧
      receive t2 = ReceiveOutcome.msg m3 t3 := by
  set t := schedN n3 (sendRound id m3 (schedN n2 (sendRound id m2
      (schedN n1 (sendRound id m1 s))))) with ht
  have hmsgs : t.messages =
      ((s.messages.push_back id m1).push_back id m2).push_back id m3 := by
    rw [ht, schedN_messages, sendRound_messages, schedN_messages,
      sendRound_messages, schedN_messages, sendRound_messages]
  have hget : t.messages.get id = [m1, m2, m3] := by
    rw [hmsgs, MappedList.get_push_back, MappedList.get_push_back,
      MappedList.get_push_back, hempty]
    rfl
  have htnodup : t.messages.KeysNodup := by
    rw [hmsgs]
    exact MappedList.keysNodup_push_back _ _ _
      (MappedList.keysNodup_push_back _ _ _
        (MappedList.keysNodup_push_back _ _ _ hnodup))
  obtain ⟨t1, h1, h1c, h1n, h1get⟩ :=
    receive_cons_step t c rest id m1 [m2, m3] hc hid htnodup hget
  obtain ⟨t2, h2, h2c, h2n, h2get⟩ :=
    receive_cons_step t1 c rest id m2 [m3] h1c hid h1n h1get
  obtain ⟨t3, h3, _, _, _⟩ :=
    receive_cons_step t2 c rest id m3 [] h2c hid h2n h2get
  exact ⟨t1, t2, t3, h1, h2, h3⟩

/-- Closed instance of `claim1_mailbox_fifo`: payloads 10, 20, 30 sent to
actor 1 come back in that order. -/
theorem claim1_mailbox_fifo_witness :
    ∃ t1 t2 t3,
      receive (schedN 0 (sendRound 1 30 (schedN 0 (sendRound 1 20
          (schedN 0 (sendRound 1 10 stA)))))) = ReceiveOutcome.msg 10 t1 ∧
      receive t1 = ReceiveOutcome.msg 20 t2 ∧
      receive t2 = ReceiveOutcome.msg 30 t3 :=
  claim1_mailbox_fifo stA 1 10 20 30 0 0 0 ctxA []
    (by simp [MappedList.KeysNodup, stA, MappedList.new]) rfl
    (by decide) rfl

/-- **C5.** When an actor's entry function returns, the trampoline pops it
from the ready queue, removes its id from the live-id set, records its stack
(base pointer and layout) into the deferred-free slot instead of freeing it
synchronously, and resumes the next ready context (or main).  The recorded
stack is released — guard page unprotected, region deallocated, slot
emptied — by the drain that every resume continuation (`schedule`'s and
`receive`'s) performs before its interrupted call completes.

The Rust source intends exactly this but does not compile: green.rs line 276
reads `ctx.id` while the field of `Context` is `thread_id`; the embedding
(`entry_point_finish`) uses `thread_id`, the evident intent. -/
theorem claim5_entry_point_teardown (s : RtState) (c : Context)
    (rest : List Context) (hc : s.contexts = c :: rest) :
    ∃ s',
      (∀ next tail, rest = next :: tail →
        entry_point_finish s = EntryFinishOutcome.toNext s' next) ∧
      (rest = [] → s.ctx_main.isSome →
        entry_point_finish s = EntryFinishOutcome.toMain s') ∧
      (rest = [] → s.ctx_main = none →
        entry_point_finish s = EntryFinishOutcome.noMainPanic s') ∧
      s'.contexts = rest ∧
      c.thread_id ∉ s'.ids ∧
      s'.unused_stack = some (c.stack, c.stack_layout) ∧
      (rm_unused_stack s').1 =
        [MemEvent.protectReadWrite c.stack PAGE_SIZE,
         MemEvent.dealloc c.stack c.stack_layout] ∧
      ((rm_unused_stack s').2).unused_stack = none ∧
      ((scheduleResume s').2).unused_stack = none ∧
      (∀ k, ((receiveResume k s').2.2).unused_stack = none) := by
  refine ⟨terminationUpdate s c rest,
    ?_, ?_, ?_, rfl, ?_, rfl, rfl, rfl, rfl, ?_⟩
  · intro next tail hrest
    unfold entry_point_finish
    rw [hc, hrest]
  · intro hrest hmain
    subst hrest
    unfold entry_point_finish
    rw [hc]
    obtain ⟨r, hr⟩ := Option.isSome_iff_exists.mp hmain
    simp [terminationUpdate, hr]
  · intro hrest hmain
    subst hrest
    unfold entry_point_finish
    rw [hc]
    simp [terminationUpdate, hmain]
  · simp [terminationUpdate, setRemove, List.mem_filter]
  · intro k
    show ((rm_unused_stack _).2).unused_stack = none
    rw [rm_unused_stack_state]

/-- Closed instance of `claim5_entry_point_teardown`: actor 1 of a
two-actor queue terminates; actor 2 is resumed, id 1 is gone from the
live-id set, the stack at 4096 sits in the deferred-free slot and the next
drain unprotects then frees it and empties the slot. -/
theorem claim5_entry_point_teardown_witness :
    ∃ s', entry_point_finish stAB = EntryFinishOutcome.toNext s' ctxB ∧
      ctxA.thread_id ∉ s'.ids ∧
      s'.unused_stack = some (ctxA.stack, ctxA.stack_layout) ∧
      (rm_unused_stack s').1 =
        [MemEvent.protectReadWrite ctxA.stack PAGE_SIZE,
         MemEvent.dealloc ctxA.stack ctxA.stack_layout] ∧
      ((rm_unused_stack s').2).unused_stack = none := by
  obtain ⟨s', h⟩ := claim5_entry_point_teardown stAB ctxA [ctxB] rfl
  exact ⟨s', h.1 ctxB [] rfl, h.2.2.2.2.1, h.2.2.2.2.2.1,
    h.2.2.2.2.2.2.1, h.2.2.2.2.2.2.2.1⟩

end Green
